import Mathlib

/-!
Verification of the `DeclarationList` core of the blockly-local-variable
plugin (src/declaration_list.ts), shallowly embedded in Lean.

Blocks are identified by their (workspace-unique) id strings.  The host
editor's block/workspace object graph is an external read-only structure;
it is embedded as a record of query functions (`BlockEnv`, `WsEnv`):
`getParent`, `getChildren(true)`, `workspace.getTopBlocks(true)`,
`block.workspace.id`, `workspace.getBlockById`.  `Workspace.getById` is
modelled as total (every workspace id referenced by a registry entry
resolves to a workspace handle; block lookup inside it may still fail,
returning `none` for JavaScript `null`).
-/

namespace LocalVariable

/-- Element type of the registry (TS type `Declaration`): `id` of the
corresponding block, `wid` of the workspace where it exists, and the
optional `name` used only for primitives with no declaration block. -/
structure Declaration where
  id : String
  wid : String
  name : Option String := none
deriving Repr, DecidableEq

/-- A block as `declare` sees it: its id, the `isInFlyout` flag, the
workspace it belongs to (`none` for a JS-falsy `block.workspace`), and
the value of `getFieldValue("name")` (`none` for JS `null`). -/
structure Block where
  id : String
  isInFlyout : Bool
  workspace : Option String
  nameField : Option String
deriving Repr, DecidableEq

/-- Read-only view of the host block tree used by
`getAccessibleDeclarations`: `parent b` is `b.getParent()`,
`children p` is `p.getChildren(true)` (ordered), `topBlocksOf b` is
`b.workspace.getTopBlocks(true)` (ordered), and `wid b` is
`b.workspace.id`. -/
structure BlockEnv where
  parent : String → Option String
  children : String → List String
  topBlocksOf : String → List String
  wid : String → String

/-- Host workspace lookup used by `declare` and `getCategoryXML`:
`getBlockById wid id` is `Blockly.Workspace.getById(wid).getBlockById(id)`,
`none` when the block does not exist. -/
structure WsEnv where
  getBlockById : String → String → Option Block

/-- JavaScript `Array.prototype.indexOf` on the sibling list (blocks are
compared by identity, which coincides with id equality since block ids
are unique within a workspace): first index, or `-1` if absent. -/
def jsIndexOfFrom (x : String) : List String → Int → Int
  | [], _ => -1
  | b :: rest, i => if b == x then i else jsIndexOfFrom x rest (i + 1)

/-- `blocks.indexOf(block)` as in the source. -/
def jsIndexOf (blocks : List String) (x : String) : Int :=
  jsIndexOfFrom x blocks 0

/-- Truthiness of `this.list.find(value=>value.id===b.id)`: some registry
entry has exactly this block's id. -/
def isDeclared (list : List Declaration) (b : String) : Bool :=
  (List.find? (fun v => v.id == b) list).isSome

/-- `{id:b.id, wid:b.workspace.id}` — the record pushed for an accessible
declaration block (no `name` property). -/
def mkDeclOf (env : BlockEnv) (b : String) : Declaration :=
  { id := b, wid := env.wid b }

/-- One level's contribution, mirroring
`blocks.filter((b,i)=>(i<=index||index===-1)&&this.list.find(...)).map(...)`,
with `i` the running element index of the filter callback. -/
def levelVarsFrom (env : BlockEnv) (list : List Declaration) (index : Int) :
    Nat → List String → List Declaration
  | _, [] => []
  | i, b :: rest =>
    if (decide ((i : Int) ≤ index) || index == -1) && isDeclared list b then
      mkDeclOf env b :: levelVarsFrom env list index (i + 1) rest
    else
      levelVarsFrom env list index (i + 1) rest

/-- The `vars` array computed at one level of the walk. -/
def levelVars (env : BlockEnv) (list : List Declaration) (blocks : List String)
    (index : Int) : List Declaration :=
  levelVarsFrom env list index 0 blocks

/-- The `for(iter=0;iter<max_iter;iter++)` walk of
`getAccessibleDeclarations`, with `fuel` the number of remaining
iterations (initially `max_iter = 100`).  Exhausting the fuel is the
`iter>=max_iter` exit, which returns the whole registry `list`; reaching
a null parent performs this level with the workspace's top blocks, then
`block=parent; if(block==null) break;` returns the accumulated result. -/
def gadLoop (env : BlockEnv) (list : List Declaration) :
    String → Option String → List Declaration → Nat → List Declaration
  | _, _, _, 0 => list
  | block, parent, result, fuel + 1 =>
    let blocks := match parent with
      | some p => env.children p
      | none => env.topBlocksOf block
    let index := jsIndexOf blocks block
    let vars := levelVars env list blocks index
    let result := result ++ vars
    match parent with
    | none => result
    | some p => gadLoop env list p (env.parent p) result fuel

/-- `DeclarationList.getAccessibleDeclarations(block)`: if the block has
no parent, return the whole registry; otherwise run the bounded ancestor
walk. -/
def getAccessibleDeclarations (env : BlockEnv) (list : List Declaration)
    (block : String) : List Declaration :=
  match env.parent block with
  | none => list
  | some p => gadLoop env list block (some p) [] 100

/-- `DeclarationList.addInitialListValues(list)`:
`this.list = this.list.concat(list)`. -/
def addInitialListValues (list newList : List Declaration) : List Declaration :=
  list ++ newList

/-- The `samename` lookup inside `declare`:
`this.list.find(({id})=>{const _block=workspace.getBlockById(id);
return _block!==null && _block.getFieldValue("name")===name;})`. -/
def sameNameEntry (env : WsEnv) (wsId : String) (name : Option String)
    (list : List Declaration) : Option Declaration :=
  List.find? (fun d =>
    match env.getBlockById wsId d.id with
    | none => false
    | some bl => bl.nameField == name) list

/-- `DeclarationList.declare(block)`.  The input is `Option Block` since
the JS parameter may be `null`.  The `samename && false` guard is kept
verbatim: its branch body is commented out in the source, so taking it
would change nothing; with the literal `false` it is never taken. -/
def declare (env : WsEnv) (list : List Declaration) (block : Option Block) :
    List Declaration :=
  match block with
  | none => list
  | some b =>
    if b.isInFlyout then list
    else
      match b.workspace with
      | none => list
      | some wsId =>
        let name := b.nameField
        if (List.find? (fun d => d.id == b.id) list).isSome then list
        else
          let samename := sameNameEntry env wsId name list
          if samename.isSome && false then list
          else list ++ [{ id := b.id, wid := wsId }]

/-- The payload of one `<block type="T"><field name="name">V</field></block>`
template pushed by `getCategoryXML`: the block type and the text of its
`name` field. -/
structure CatElem where
  btype : String
  fieldText : String
deriving Repr, DecidableEq

/-- JS truthiness of the optional `name` property: present and nonempty. -/
def jsTruthyName : Option String → Bool
  | none => false
  | some s => !(s == "")

/-- One entry's contribution to `getCategoryXML`: primitives
(`id==="" && name`) always render with their stored `name`; block-backed
entries resolve the live block and render with the declaration `id` as
the field text only when `filter` accepts the resolved block. -/
def catStep (env : WsEnv) (typeName : String) (filter : Option Block → Bool)
    (d : Declaration) : Option CatElem :=
  if d.id == "" && jsTruthyName d.name then
    some { btype := typeName, fieldText := d.name.getD "" }
  else if filter (env.getBlockById d.wid d.id) then
    some { btype := typeName, fieldText := d.id }
  else none

/-- `DeclarationList.getCategoryXML(typeName, filter)`: the in-order
`forEach`/`push` loop over the registry. -/
def getCategoryXML (env : WsEnv) (list : List Declaration) (typeName : String)
    (filter : Option Block → Bool) : List CatElem :=
  list.filterMap (catStep env typeName filter)

/-- `true` iff starting from `parent`, `n` successive ancestors exist
(the walk would still be running after `n` iterations). -/
def chainAlive (env : BlockEnv) : Option String → Nat → Bool
  | _, 0 => true
  | none, _ + 1 => false
  | some p, n + 1 => chainAlive env (env.parent p) n

end LocalVariable

namespace LocalVariable

/-- Concrete tree for the sibling-ordering scenario: one top-level parent
`P` with ordered children `A`, `B`, `C`, `D`; the registry declares `A`,
`B`, `D` but not `C`. -/
def envC1 : BlockEnv :=
  { parent := fun b => if b == "P" then none
      else if b == "A" || b == "B" || b == "C" || b == "D" then some "P"
      else none,
    children := fun p => if p == "P" then ["A", "B", "C", "D"] else [],
    topBlocksOf := fun _ => ["P"],
    wid := fun _ => "w" }

def listC1 : List Declaration :=
  [{ id := "A", wid := "w" }, { id := "B", wid := "w" }, { id := "D", wid := "w" }]

/-- The walk with exhausted fuel is the `iter>=max_iter` exit. -/
lemma gadLoop_zero (env : BlockEnv) (list : List Declaration) (block : String)
    (parent : Option String) (result : List Declaration) :
    gadLoop env list block parent result 0 = list := rfl

/-- One iteration of the walk below a live parent. -/
lemma gadLoop_succ_some (env : BlockEnv) (list : List Declaration) (block p : String)
    (result : List Declaration) (fuel : Nat) :
    gadLoop env list block (some p) result (fuel + 1) =
      gadLoop env list p (env.parent p)
        (result ++ levelVars env list (env.children p) (jsIndexOf (env.children p) block))
        fuel := rfl

/-- The final iteration at the top level: the workspace's top blocks are
scanned, then `block=parent` is null and the loop breaks. -/
lemma gadLoop_succ_none (env : BlockEnv) (list : List Declaration) (block : String)
    (result : List Declaration) (fuel : Nat) :
    gadLoop env list block none result (fuel + 1) =
      result ++ levelVars env list (env.topBlocksOf block)
        (jsIndexOf (env.topBlocksOf block) block) := rfl

/-- While the ancestor chain stays alive for all remaining iterations, the
walk exhausts its fuel and falls back to the whole registry. -/
lemma gadLoop_alive (env : BlockEnv) (list : List Declaration) :
    ∀ (fuel : Nat) (block : String) (parent : Option String) (result : List Declaration),
      chainAlive env parent fuel = true →
      gadLoop env list block parent result fuel = list
  | 0, _, _, _, _ => rfl
  | fuel + 1, _, none, _, h => by simp [chainAlive] at h
  | fuel + 1, block, some p, result, h => by
      rw [gadLoop_succ_some]
      exact gadLoop_alive env list fuel p (env.parent p) _ (by simpa [chainAlive] using h)

end LocalVariable

namespace LocalVariable

/-- C2: for every block with no parent, `getAccessibleDeclarations`
returns exactly the full registry contents, in registry insertion order,
unfiltered, regardless of the container's other top-level blocks. -/
theorem c2_top_level_full_registry (env : BlockEnv) (list : List Declaration)
    (block : String) (h : env.parent block = none) :
    getAccessibleDeclarations env list block = list := by
  unfold getAccessibleDeclarations
  rw [h]

theorem c2_witness :
    envC1.parent "P" = none ∧ getAccessibleDeclarations envC1 listC1 "P" = listC1 :=
  ⟨rfl, c2_top_level_full_registry envC1 listC1 "P" rfl⟩

/-- C3: the ancestor walk is bounded to 100 levels; whenever the ancestor
chain is still alive after 100 steps (deeper than the bound, or cyclic),
the function terminates (it is a total Lean function) and returns the
entire unfiltered registry. -/
theorem c3_depth_bound_fallback (env : BlockEnv) (list : List Declaration)
    (block : String) (h : chainAlive env (env.parent block) 100 = true) :
    getAccessibleDeclarations env list block = list := by
  unfold getAccessibleDeclarations
  cases hp : env.parent block with
  | none => rfl
  | some p => exact gadLoop_alive env list 100 block (some p) [] (hp ▸ h)

/-- A pathological self-cycle: every block is its own parent. -/
def envCyc : BlockEnv :=
  { parent := fun _ => some "X",
    children := fun _ => ["X"],
    topBlocksOf := fun _ => [],
    wid := fun _ => "w" }

def listCyc : List Declaration := [{ id := "d1", wid := "w" }]

theorem c3_witness :
    chainAlive envCyc (envCyc.parent "X") 100 = true ∧
    getAccessibleDeclarations envCyc listCyc "X" = listCyc :=
  ⟨by decide, c3_depth_bound_fallback envCyc listCyc "X" (by decide)⟩

/-- With `index === -1` the position filter is vacuous and every
registered sibling survives. -/
lemma levelVarsFrom_neg (env : BlockEnv) (list : List Declaration) :
    ∀ (i : Nat) (blocks : List String),
      levelVarsFrom env list (-1) i blocks =
        (blocks.filter (isDeclared list)).map (mkDeclOf env)
  | _, [] => rfl
  | i, b :: rest => by
      have hbeq : ((-1 : Int) == (-1 : Int)) = true := rfl
      cases hd : isDeclared list b with
      | true =>
          simp [levelVarsFrom, hbeq, hd, List.filter_cons,
            levelVarsFrom_neg env list (i + 1) rest]
      | false =>
          simp [levelVarsFrom, hbeq, hd, List.filter_cons,
            levelVarsFrom_neg env list (i + 1) rest]

/-- With a nonnegative `index`, the filter keeps exactly the registered
siblings among the first `index + 1` elements (counting from offset `i`). -/
lemma levelVarsFrom_nonneg (env : BlockEnv) (list : List Declaration) (index : Int)
    (hnn : 0 ≤ index) :
    ∀ (i : Nat) (blocks : List String),
      levelVarsFrom env list index i blocks =
        ((blocks.take (index.toNat + 1 - i)).filter (isDeclared list)).map (mkDeclOf env)
  | _, [] => by simp [levelVarsFrom]
  | i, b :: rest => by
      have hne : (index == -1) = false := by
        rw [beq_eq_false_iff_ne]
        omega
      by_cases hle : (i : Int) ≤ index
      · have htake : index.toNat + 1 - i = (index.toNat - i) + 1 := by omega
        have htake2 : index.toNat + 1 - (i + 1) = index.toNat - i := by omega
        have hc : decide ((i : Int) ≤ index) = true := by simpa using hle
        cases hd : isDeclared list b with
        | true =>
            simp [levelVarsFrom, hc, hne, hd, htake, List.take_succ_cons,
              List.filter_cons, levelVarsFrom_nonneg env list index hnn (i + 1) rest, htake2]
        | false =>
            simp [levelVarsFrom, hc, hne, hd, htake, List.take_succ_cons,
              List.filter_cons, levelVarsFrom_nonneg env list index hnn (i + 1) rest, htake2]
      · have hc : decide ((i : Int) ≤ index) = false := by simpa using hle
        have htake : index.toNat + 1 - i = 0 := by omega
        have htake2 : index.toNat + 1 - (i + 1) = 0 := by omega
        simp [levelVarsFrom, hc, hne, htake,
          levelVarsFrom_nonneg env list index hnn (i + 1) rest, htake2]

/-- C1: at each level of the walk the ordered sibling list is filtered to
the registered declarations at or before the queried block's index
(`i <= index`); concretely, with parent `P` and children
`[A(decl), B(decl), C(non-decl), D(decl)]`, querying from `D` yields
`[A, B, D]` in sibling order and querying from `C` yields `[A, B]`. -/
theorem c1_sibling_order :
    (∀ (env : BlockEnv) (list : List Declaration) (blocks : List String) (index : Int),
      0 ≤ index →
      levelVars env list blocks index =
        ((blocks.take (index.toNat + 1)).filter (isDeclared list)).map (mkDeclOf env)) ∧
    getAccessibleDeclarations envC1 listC1 "D" =
      [{ id := "A", wid := "w" }, { id := "B", wid := "w" }, { id := "D", wid := "w" }] ∧
    getAccessibleDeclarations envC1 listC1 "C" =
      [{ id := "A", wid := "w" }, { id := "B", wid := "w" }] :=
  ⟨fun env list blocks index h => by
      simpa using levelVarsFrom_nonneg env list index h 0 blocks,
    by decide, by decide⟩

theorem c1_witness :
    (0 : Int) ≤ 1 ∧
    levelVars envC1 listC1 ["A", "B", "C", "D"] 1 =
      (((["A", "B", "C", "D"].take ((1 : Int).toNat + 1))).filter (isDeclared listC1)).map
        (mkDeclOf envC1) :=
  ⟨by decide, c1_sibling_order.1 envC1 listC1 ["A", "B", "C", "D"] 1 (by decide)⟩

/-- C5: when the queried block is absent from its parent's computed
sibling list (`index == -1`), that level contributes all registered
declaration siblings instead of none (here stated with a top-level
parent, so the walk ends on the following iteration). -/
theorem c5_not_found_fail_open (env : BlockEnv) (list : List Declaration)
    (block p : String) (hp : env.parent block = some p)
    (hidx : jsIndexOf (env.children p) block = -1)
    (htop : env.parent p = none) :
    getAccessibleDeclarations env list block =
      ((env.children p).filter (isDeclared list)).map (mkDeclOf env) ++
        levelVars env list (env.topBlocksOf p) (jsIndexOf (env.topBlocksOf p) p) := by
  unfold getAccessibleDeclarations
  rw [hp]
  show gadLoop env list block (some p) [] (99 + 1) = _
  rw [gadLoop_succ_some, htop, gadLoop_succ_none, hidx, List.nil_append]
  unfold levelVars
  rw [levelVarsFrom_neg]

/-- A detached query block `G`: its parent is `P2` but it does not occur
in `P2`'s computed child list. -/
def envC5 : BlockEnv :=
  { parent := fun b => if b == "G" then some "P2" else none,
    children := fun p => if p == "P2" then ["A2", "B2"] else [],
    topBlocksOf := fun _ => ["P2"],
    wid := fun _ => "w" }

def listC5 : List Declaration :=
  [{ id := "A2", wid := "w" }, { id := "B2", wid := "w" }]

theorem c5_witness :
    envC5.parent "G" = some "P2" ∧
    jsIndexOf (envC5.children "P2") "G" = -1 ∧
    envC5.parent "P2" = none ∧
    getAccessibleDeclarations envC5 listC5 "G" =
      ((envC5.children "P2").filter (isDeclared listC5)).map (mkDeclOf envC5) ++
        levelVars envC5 listC5 (envC5.topBlocksOf "P2")
          (jsIndexOf (envC5.topBlocksOf "P2") "P2") :=
  ⟨rfl, by decide, rfl,
    c5_not_found_fail_open envC5 listC5 "G" "P2" rfl (by decide) rfl⟩

/-- Number of registry entries carrying a given block identifier. -/
def countId (list : List Declaration) (i : String) : Nat :=
  (list.filter (fun d => d.id == i)).length

/-- `declare` is a no-op on a null block, a flyout block, or a block with
no workspace. -/
lemma declare_invalid (env : WsEnv) (list : List Declaration) (b : Block)
    (h : b.isInFlyout = true ∨ b.workspace = none) :
    declare env list (some b) = list := by
  rcases h with h | h
  · simp [declare, h]
  · cases hfly : b.isInFlyout with
    | true => simp [declare, hfly]
    | false => simp [declare, hfly, h]

/-- `declare` is a no-op when an entry with the block's id already exists. -/
lemma declare_of_found (env : WsEnv) (list : List Declaration) (b : Block)
    (hf : (List.find? (fun d => d.id == b.id) list).isSome = true) :
    declare env list (some b) = list := by
  cases hfly : b.isInFlyout with
  | true => simp [declare, hfly]
  | false =>
    cases hw : b.workspace with
    | none => simp [declare, hfly, hw]
    | some w => simp [declare, hfly, hw, hf]

/-- A valid block with a fresh id is appended; the `samename` branch is
behind `&& false` and never fires, whatever the registry's names are. -/
lemma declare_push (env : WsEnv) (list : List Declaration) (b : Block) (wsId : String)
    (h1 : b.isInFlyout = false) (h2 : b.workspace = some wsId)
    (h3 : List.find? (fun d => d.id == b.id) list = none) :
    declare env list (some b) = list ++ [{ id := b.id, wid := wsId }] := by
  simp [declare, h1, h2, h3]

/-- After the push, the block's id is found in the registry. -/
lemma find_after_push (list : List Declaration) (b : Block) (wsId : String)
    (h3 : List.find? (fun d => d.id == b.id) list = none) :
    (List.find? (fun d => d.id == b.id)
      (list ++ [{ id := b.id, wid := wsId }])).isSome = true := by
  rw [List.find?_append, h3]
  simp [List.find?]

/-- C4 (amended): re-declaring is always a no-op — for any registry state
and any block, the second `declare` call changes nothing; and when the
block is valid and its identifier is not yet registered, `declare` leaves
exactly one entry with that identifier.  (If the seeded registry already
holds several entries with that identifier, `declare` leaves them all in
place; see the counterexample.) -/
theorem c4_declare_idempotent :
    (∀ (env : WsEnv) (list : List Declaration) (block : Option Block),
      declare env (declare env list block) block = declare env list block) ∧
    (∀ (env : WsEnv) (list : List Declaration) (b : Block) (wsId : String),
      b.isInFlyout = false → b.workspace = some wsId →
      List.find? (fun d => d.id == b.id) list = none →
      countId (declare env list (some b)) b.id = 1) := by
  constructor
  · intro env list block
    rcases block with _ | b
    · rfl
    · by_cases hfly : b.isInFlyout = true
      · have h := declare_invalid env list b (Or.inl hfly)
        rw [h, h]
      · have hfly' : b.isInFlyout = false := by
          cases hb : b.isInFlyout
          · rfl
          · exact absurd hb hfly
        cases hw : b.workspace with
        | none =>
          have h := declare_invalid env list b (Or.inr hw)
          rw [h, h]
        | some w =>
          cases hfind : List.find? (fun d => d.id == b.id) list with
          | some d =>
            have h := declare_of_found env list b (by simp [hfind])
            rw [h, h]
          | none =>
            rw [declare_push env list b w hfly' hw hfind]
            exact declare_of_found env _ b (find_after_push list b w hfind)
  · intro env list b wsId h1 h2 h3
    rw [declare_push env list b wsId h1 h2 h3]
    unfold countId
    rw [List.filter_append]
    have hnil : list.filter (fun d => d.id == b.id) = [] := by
      rw [List.filter_eq_nil_iff]
      intro d hd
      have := List.find?_eq_none.mp h3 d hd
      simpa using this
    simp [hnil, List.filter]

/-- A workspace lookup in which no block resolves. -/
def wsEnv0 : WsEnv := { getBlockById := fun _ _ => none }

def blkX : Block :=
  { id := "X", isInFlyout := false, workspace := some "w", nameField := some "x" }

theorem c4_witness :
    declare wsEnv0 (declare wsEnv0 [] (some blkX)) (some blkX) =
      declare wsEnv0 [] (some blkX) ∧
    countId (declare wsEnv0 [] (some blkX)) "X" = 1 :=
  ⟨c4_declare_idempotent.1 wsEnv0 [] (some blkX),
    c4_declare_idempotent.2 wsEnv0 [] blkX "w" rfl rfl (by decide)⟩

/-- C4 counterexample: a registry seeded (via `addInitialListValues`,
which performs no duplicate validation) with two entries for identifier
`X` keeps both of them across repeated `declare` calls, so "exactly one
registry entry with that identifier" fails for that starting state. -/
theorem c4_cex :
    ¬ countId
        (declare wsEnv0
          (declare wsEnv0
            (addInitialListValues []
              [{ id := "X", wid := "w" }, { id := "X", wid := "w" }])
            (some blkX))
          (some blkX)) "X" = 1 := by
  decide

/-- C7: `declare` on a null block, a flyout/template-palette block, or a
block with no workspace raises no error (it is a total function) and
leaves the registry unchanged. -/
theorem c7_declare_invalid_noop (env : WsEnv) (list : List Declaration)
    (block : Option Block)
    (h : block = none ∨
      ∃ b, block = some b ∧ (b.isInFlyout = true ∨ b.workspace = none)) :
    declare env list block = list := by
  rcases h with rfl | ⟨b, rfl, hb⟩
  · rfl
  · exact declare_invalid env list b hb

def blkFly : Block :=
  { id := "f", isInFlyout := true, workspace := some "w", nameField := none }

theorem c7_witness :
    (some blkFly = none ∨
      ∃ b, some blkFly = some b ∧ (b.isInFlyout = true ∨ b.workspace = none)) ∧
    declare wsEnv0 listC1 (some blkFly) = listC1 :=
  ⟨Or.inr ⟨blkFly, rfl, Or.inl rfl⟩,
    c7_declare_invalid_noop wsEnv0 listC1 (some blkFly)
      (Or.inr ⟨blkFly, rfl, Or.inl rfl⟩)⟩

/-- C8: the duplicate-name branch never takes effect — for every valid
block whose id is not yet registered, `declare` appends `{id, wid}`
whatever the display names in the registry are (the statement carries no
hypothesis about names; the witness exhibits an actual collision). -/
theorem c8_dead_name_check (env : WsEnv) (list : List Declaration) (b : Block)
    (wsId : String) (h1 : b.isInFlyout = false) (h2 : b.workspace = some wsId)
    (h3 : List.find? (fun d => d.id == b.id) list = none) :
    declare env list (some b) = list ++ [{ id := b.id, wid := wsId }] :=
  declare_push env list b wsId h1 h2 h3

/-- A workspace in which block `old` exists and its `name` field reads
`x` — the same display name the newly declared block carries. -/
def wsEnvN : WsEnv :=
  { getBlockById := fun wid id =>
      if wid == "w" && id == "old" then
        some { id := "old", isInFlyout := false, workspace := some "w",
               nameField := some "x" }
      else none }

def listN : List Declaration := [{ id := "old", wid := "w" }]

def blkNew : Block :=
  { id := "new", isInFlyout := false, workspace := some "w", nameField := some "x" }

theorem c8_witness :
    (sameNameEntry wsEnvN "w" blkNew.nameField listN).isSome = true ∧
    List.find? (fun d => d.id == blkNew.id) listN = none ∧
    declare wsEnvN listN (some blkNew) = listN ++ [{ id := "new", wid := "w" }] :=
  ⟨by decide, by decide,
    c8_dead_name_check wsEnvN listN blkNew "w" rfl rfl (by decide)⟩

/-- The end-to-end tree: a top-level sequence block `S` whose ordered
children are the declaration block `b1` followed by the getter `g`. -/
def envE : BlockEnv :=
  { parent := fun b => if b == "b1" || b == "g" then some "S" else none,
    children := fun p => if p == "S" then ["b1", "g"] else [],
    topBlocksOf := fun _ => ["S"],
    wid := fun _ => "w" }

def blkB1 : Block :=
  { id := "b1", isInFlyout := false, workspace := some "w", nameField := some "x" }

/-- The registry after seeding the `PI` primitive and declaring `b1`. -/
def listE : List Declaration :=
  [{ id := "", wid := "w", name := some "PI" }, { id := "b1", wid := "w" }]

/-- C6 counterexample: in the end-to-end scenario the query from the
nested getter `g` does NOT return `[PI, b1]` — the primitive `PI` (empty
id) never matches any sibling block id, so it is absent. -/
theorem c6_cex :
    ¬ getAccessibleDeclarations envE listE "g" =
        [{ id := "", wid := "w", name := some "PI" }, { id := "b1", wid := "w" }] := by
  decide

/-- C6 (amended): seeding the registry with the primitive `PI` and then
declaring `b1` yields the registry `[PI, b1]`; querying from a block with
no parent (the sequence `S`) returns `[PI, b1]`; but querying from the
getter `g` nested after `b1` returns only `[b1]` — primitives do not
appear in nested-scope queries. -/
theorem c6_end_to_end :
    declare wsEnv0
        (addInitialListValues [] [{ id := "", wid := "w", name := some "PI" }])
        (some blkB1) = listE ∧
    getAccessibleDeclarations envE listE "S" = listE ∧
    getAccessibleDeclarations envE listE "g" = [{ id := "b1", wid := "w" }] := by
  refine ⟨by decide, ?_, by decide⟩
  decide

/-- C9: primitives always pass through `getCategoryXML` keyed by their
stored name; the filter is never consulted for a primitive entry; and
output order follows registry order (the projection is a homomorphism
for concatenation). -/
theorem c9_primitive_passthrough :
    (∀ (env : WsEnv) (list : List Declaration) (tn : String)
      (filter : Option Block → Bool) (d : Declaration),
      d ∈ list → d.id = "" → jsTruthyName d.name = true →
      ({ btype := tn, fieldText := d.name.getD "" } : CatElem) ∈
        getCategoryXML env list tn filter) ∧
    (∀ (env : WsEnv) (tn : String) (f g : Option Block → Bool) (d : Declaration),
      d.id = "" → jsTruthyName d.name = true →
      catStep env tn f d = catStep env tn g d) ∧
    (∀ (env : WsEnv) (l1 l2 : List Declaration) (tn : String)
      (filter : Option Block → Bool),
      getCategoryXML env (l1 ++ l2) tn filter =
        getCategoryXML env l1 tn filter ++ getCategoryXML env l2 tn filter) := by
  refine ⟨?_, ?_, ?_⟩
  · intro env list tn filter d hd hid hname
    exact List.mem_filterMap.mpr ⟨d, hd, by simp [catStep, hid, hname]⟩
  · intro env tn f g d hid hname
    simp [catStep, hid, hname]
  · intro env l1 l2 tn filter
    exact List.filterMap_append l1 l2 (catStep env tn filter)

def piDecl : Declaration := { id := "", wid := "w", name := some "PI" }

theorem c9_witness :
    (piDecl ∈ listE ∧ piDecl.id = "" ∧ jsTruthyName piDecl.name = true ∧
      ({ btype := "T", fieldText := "PI" } : CatElem) ∈
        getCategoryXML wsEnv0 listE "T" (fun _ => false)) ∧
    catStep wsEnv0 "T" (fun _ => false) piDecl =
      catStep wsEnv0 "T" (fun _ => true) piDecl ∧
    getCategoryXML wsEnv0 (listE ++ listN) "T" (fun _ => false) =
      getCategoryXML wsEnv0 listE "T" (fun _ => false) ++
        getCategoryXML wsEnv0 listN "T" (fun _ => false) :=
  ⟨⟨by decide, rfl, rfl,
      c9_primitive_passthrough.1 wsEnv0 listE "T" (fun _ => false) piDecl
        (by decide) rfl rfl⟩,
    c9_primitive_passthrough.2.1 wsEnv0 "T" (fun _ => false) (fun _ => true)
      piDecl rfl rfl,
    c9_primitive_passthrough.2.2 wsEnv0 listE listN "T" (fun _ => false)⟩

/-- Every element produced at one level is a registered sibling mapped
through `mkDeclOf`. -/
lemma levelVarsFrom_mem (env : BlockEnv) (list : List Declaration) (index : Int) :
    ∀ (i : Nat) (blocks : List String) (d : Declaration),
      d ∈ levelVarsFrom env list index i blocks →
      ∃ b, b ∈ blocks ∧ isDeclared list b = true ∧ d = mkDeclOf env b
  | _, [], _, h => absurd h (by simp [levelVarsFrom])
  | i, b :: rest, d, h => by
      rw [levelVarsFrom] at h
      by_cases hc : ((decide ((i : Int) ≤ index) || index == -1) &&
          isDeclared list b) = true
      · rw [if_pos hc] at h
        rcases List.mem_cons.mp h with h1 | h2
        · exact ⟨b, List.mem_cons_self b rest, (Bool.and_eq_true _ _ |>.mp hc).2, h1⟩
        · obtain ⟨b2, hb2, hd2, he2⟩ := levelVarsFrom_mem env list index (i + 1) rest d h2
          exact ⟨b2, List.mem_cons_of_mem b hb2, hd2, he2⟩
      · rw [if_neg hc] at h
        obtain ⟨b2, hb2, hd2, he2⟩ := levelVarsFrom_mem env list index (i + 1) rest d h
        exact ⟨b2, List.mem_cons_of_mem b hb2, hd2, he2⟩

/-- In a run that breaks out of the loop (the chain dies within the fuel),
every accumulated element comes from some level's sibling list. -/
lemma gadLoop_mem (env : BlockEnv) (list : List Declaration) :
    ∀ (fuel : Nat) (block : String) (parent : Option String)
      (acc : List Declaration) (d : Declaration),
      chainAlive env parent fuel = false →
      d ∈ gadLoop env list block parent acc fuel →
      d ∈ acc ∨
        ∃ bs b, ((∃ q, bs = env.children q) ∨ (∃ q, bs = env.topBlocksOf q)) ∧
          b ∈ bs ∧ isDeclared list b = true ∧ d = mkDeclOf env b
  | 0, _, _, _, _, hch, _ => by simp [chainAlive] at hch
  | fuel + 1, block, none, acc, d, _, hmem => by
      rw [gadLoop_succ_none] at hmem
      rcases List.mem_append.mp hmem with h | h
      · exact Or.inl h
      · rw [levelVars] at h
        obtain ⟨b, hb, hd2, he2⟩ := levelVarsFrom_mem env list _ 0 _ d h
        exact Or.inr ⟨env.topBlocksOf block, b, Or.inr ⟨block, rfl⟩, hb, hd2, he2⟩
  | fuel + 1, block, some p, acc, d, hch, hmem => by
      rw [gadLoop_succ_some] at hmem
      have hch2 : chainAlive env (env.parent p) fuel = false := by
        simpa [chainAlive] using hch
      rcases gadLoop_mem env list fuel p (env.parent p) _ d hch2 hmem with h | h
      · rcases List.mem_append.mp h with h1 | h2
        · exact Or.inl h1
        · rw [levelVars] at h2
          obtain ⟨b, hb, hd2, he2⟩ := levelVarsFrom_mem env list _ 0 _ d h2
          exact Or.inr ⟨env.children p, b, Or.inl ⟨p, rfl⟩, hb, hd2, he2⟩
      · exact Or.inr h

/-- C10: when the queried block has a parent, the depth bound is not hit,
and (as the host guarantees) every block id occurring in a child list or
top-block list is nonempty, every Declaration returned has a nonempty id
that is the id of a registered sibling block and carries no `name`
field — so primitive entries (empty id) never appear in a nested-scope
query's result. -/
theorem c10_nested_results_block_backed (env : BlockEnv) (list : List Declaration)
    (block p : String) (hp : env.parent block = some p)
    (hbound : chainAlive env (some p) 100 = false)
    (hc : ∀ q b, b ∈ env.children q → b ≠ "")
    (ht : ∀ q b, b ∈ env.topBlocksOf q → b ≠ "")
    (d : Declaration) (hd : d ∈ getAccessibleDeclarations env list block) :
    d.id ≠ "" ∧ isDeclared list d.id = true ∧ d.name = none ∧
      ∃ bs, ((∃ q, bs = env.children q) ∨ (∃ q, bs = env.topBlocksOf q)) ∧
        d.id ∈ bs := by
  have heq : getAccessibleDeclarations env list block =
      gadLoop env list block (some p) [] 100 := by
    unfold getAccessibleDeclarations
    rw [hp]
  rw [heq] at hd
  rcases gadLoop_mem env list 100 block (some p) [] d hbound hd with h | h
  · simp at h
  · obtain ⟨bs, b, hbs, hb, hdecl, he⟩ := h
    subst he
    refine ⟨?_, hdecl, rfl, bs, hbs, hb⟩
    rcases hbs with ⟨q, rfl⟩ | ⟨q, rfl⟩
    · exact hc q b hb
    · exact ht q b hb

theorem c10_witness :
    envE.parent "g" = some "S" ∧
    chainAlive envE (some "S") 100 = false ∧
    ({ id := "b1", wid := "w" } : Declaration) ∈
      getAccessibleDeclarations envE listE "g" ∧
    ("b1" : String) ≠ "" ∧ isDeclared listE "b1" = true ∧
    ({ id := "b1", wid := "w" } : Declaration).name = none ∧
    ∃ bs, ((∃ q, bs = envE.children q) ∨ (∃ q, bs = envE.topBlocksOf q)) ∧
      ("b1" : String) ∈ bs := by
  have hc : ∀ q b, b ∈ envE.children q → b ≠ "" := by
    intro q b hb
    by_cases hq : (q == "S") = true
    · simp only [envE, hq, if_pos, List.mem_cons, List.not_mem_nil, or_false] at hb
      rcases hb with rfl | rfl <;> decide
    · simp only [envE] at hb
      rw [if_neg hq] at hb
      simp at hb
  have ht : ∀ q b, b ∈ envE.topBlocksOf q → b ≠ "" := by
    intro q b hb
    simp only [envE, List.mem_cons, List.not_mem_nil, or_false] at hb
    subst hb
    decide
  have hmem : ({ id := "b1", wid := "w" } : Declaration) ∈
      getAccessibleDeclarations envE listE "g" := by decide
  have h := c10_nested_results_block_backed envE listE "g" "S" rfl (by decide)
    hc ht { id := "b1", wid := "w" } hmem
  exact ⟨rfl, by decide, hmem, h.1, h.2.1, h.2.2.1, h.2.2.2⟩

end LocalVariable
